import Mathlib

/-!
Verification of the text-extraction core of `src/main.py` (GreenMeter voice
API): the five field extractors and the `parse_details` orchestrator.

Embedding notes.  Each concrete Python regex is hand-compiled into a
recursive matcher over `List Char` that reproduces the `re` engine's
behaviour for that pattern: `re.search` / the first hit of `re.finditer`
scan candidate start positions left to right and at each position run the
pattern with its alternation priorities and greedy quantifiers (the
residual backtracking of every pattern used here collapses to the
deterministic code below, as argued in the comments next to each matcher).
`str.lower`, the classes \d, \w, \s and the word-boundary \b are embedded
at the ASCII level.  Python floats are embedded as exact rationals (every
value the claims exercise is exactly representable) together with the
half-to-even tie rule of Python's `round`.
-/

/-! ## Character classes (ASCII level) -/

/-- ASCII lower-case letter, the class a-z. -/
def isLowerAZ (c : Char) : Bool := decide (97 ≤ c.toNat ∧ c.toNat ≤ 122)

/-- ASCII upper-case letter, the class A-Z. -/
def isUpperAZ (c : Char) : Bool := decide (65 ≤ c.toNat ∧ c.toNat ≤ 90)

/-- ASCII digit, the class \d = 0-9. -/
def isDigit09 (c : Char) : Bool := decide (48 ≤ c.toNat ∧ c.toNat ≤ 57)

/-- ASCII letter, the class a-zA-Z. -/
def isAlphaAZ (c : Char) : Bool := isLowerAZ c || isUpperAZ c

/-- Word character, the class \w = a-zA-Z0-9_. -/
def isWordChar (c : Char) : Bool := isLowerAZ c || isUpperAZ c || isDigit09 c || c == '_'

/-- Python whitespace class \s: space, tab, newline, carriage return,
vertical tab, form feed. -/
def pyWs (c : Char) : Bool :=
  decide (c.toNat = 32 ∨ c.toNat = 9 ∨ c.toNat = 10 ∨ c.toNat = 13 ∨ c.toNat = 11 ∨ c.toNat = 12)

/-- Word boundary \b on the left of a match that starts with a word
character: the previous character (if any) is not a word character. -/
def noWordBefore : Option Char → Bool
  | none => true
  | some c => !isWordChar c

/-- Word boundary \b on the right of a match that ends with a word
character: the next character (if any) is not a word character. -/
def boundaryAfterWord : List Char → Bool
  | [] => true
  | c :: _ => !isWordChar c

/-- Embedding of `str.lower` at the ASCII level. -/
def pyLowerChar (c : Char) : Char :=
  if isUpperAZ c then Char.ofNat (c.toNat + 32) else c

/-- Lower-cased character list of the input, `t = text.lower()`. -/
def pyLower (s : String) : List Char := s.data.map pyLowerChar

/-! ## Tokenisation helpers (str.split, " ".join, str.strip, re.findall) -/

/-- Maximal runs of characters satisfying `keep`, accumulator-passing.
With `keep = not whitespace` this is Python's `str.split()`, with
`keep = [a-z0-9]` it is `re.findall(r"[a-z0-9]+", t)`. -/
def splitRuns (keep : Char → Bool) : List Char → List Char → List (List Char)
  | [], acc => if acc.isEmpty then [] else [acc.reverse]
  | c :: rest, acc =>
    if keep c then splitRuns keep rest (c :: acc)
    else if acc.isEmpty then splitRuns keep rest []
    else acc.reverse :: splitRuns keep rest []

/-- Python `candidate.split()`: maximal runs of non-whitespace. -/
def pySplit (cs : List Char) : List (List Char) := splitRuns (fun c => !pyWs c) cs []

/-- Python `" ".join(words)`. -/
def joinSpace : List (List Char) → List Char
  | [] => []
  | [w] => w
  | w :: v :: ws => w ++ ' ' :: joinSpace (v :: ws)

/-- Python `str.strip()`: drop whitespace at both ends. -/
def pyStrip (cs : List Char) : List Char :=
  ((cs.dropWhile pyWs).reverse.dropWhile pyWs).reverse

/-- Python substring test `pat in s` (contiguous substring). -/
def isSubstr (pat : List Char) : List Char → Bool
  | [] => pat.isPrefixOf ([] : List Char)
  | c :: rest => pat.isPrefixOf (c :: rest) || isSubstr pat rest

/-! ## Numeric conversion: `_to_int_safe` (main.py lines 67-73) -/

/-- Numeric value of a digit string, as produced by `float`/`int` on the
captured group. -/
def natOfDigits (ds : List Char) : ℕ := ds.foldl (fun n c => 10 * n + (c.toNat - 48)) 0

/-- Python `round` on the exact non-negative rational num/den (den > 0):
nearest integer, ties to even. -/
def roundHalfEven (num den : ℕ) : ℕ :=
  if 2 * (num % den) < den then num / den
  else if den < 2 * (num % den) then num / den + 1
  else if num / den % 2 = 0 then num / den else num / den + 1

/-- Embedding of `_to_int_safe(value) = int(round(float(value)))` with the
catch-all `except` that turns a conversion error into `None`.  The float
argument is embedded as the exact rational num/den (every value the
claims exercise is exactly representable as a float, and all are
non-negative), so the conversion itself always succeeds; the error case of
the `try` block is the `Option` codomain itself. -/
def to_int_safe (num den : ℕ) : Option ℤ := some ((roundHalfEven num den : ℕ) : ℤ)

/-! ## Static vocabularies (main.py lines 35-50) -/

def KNOWN_LOCATIONS : List String :=
  ["kitchen", "living room", "bedroom", "bathroom", "garage", "office",
   "dining room", "kids room", "study", "storeroom", "balcony", "hall",
   "laundry", "pantry"]

def DEVICE_KEYWORDS : List String :=
  ["fridge", "refrigerator", "ac", "air conditioner", "washing machine",
   "microwave", "oven", "heater", "dishwasher", "fan", "tv", "television",
   "cooler", "freezer", "pump", "dryer"]

/-- `NUMBER_WORDS`, in the insertion order of the Python dict (which is the
order the alternation in `_extract_rating` is built in). -/
def NUMBER_WORDS : List (String × ℤ) :=
  [("zero", 0), ("one", 1), ("two", 2), ("three", 3), ("four", 4), ("five", 5),
   ("six", 6), ("seven", 7), ("eight", 8), ("nine", 9), ("ten", 10)]

/-! ## Power extractor: `_extract_power_watts` (main.py lines 75-91)

Pattern `(?P<num>\d+(?:\.\d+)?)\s*(?P<unit>k(?:ilo)?w(?:att)?s?|w(?:att)?s?)\b`,
first hit of `finditer`; fallback `(?:power|wattage)\s*[:=]?\s*(\d+)`.

At a given start position the engine's backtracking collapses: shortening
`\d+`, the fractional digits or `\s*` always leaves the unit group to start
on a digit, a dot or a space, on which both unit alternatives fail
immediately, so only the maximal (greedy) split can match.  The unit
alternation with its two optional groups and the trailing \b is enumerated
as the twelve candidate literals below in engine priority order. -/

def unitCandidates : List (String × Bool) :=
  [("kilowatts", true), ("kilowatt", true), ("kilows", true), ("kilow", true),
   ("kwatts", true), ("kwatt", true), ("kws", true), ("kw", true),
   ("watts", false), ("watt", false), ("ws", false), ("w", false)]

/-- Match the unit group plus trailing \b at the current position; `true`
means the unit stem starts with k/kilo (code multiplies by 1000). -/
def matchUnit (cs : List Char) : Option Bool :=
  (unitCandidates.find? (fun p =>
     p.1.data.isPrefixOf cs && boundaryAfterWord (cs.drop p.1.length))).map Prod.snd

/-- Integer digits of the num group (greedy `\d+`). -/
def powerInt (cs : List Char) : List Char := cs.takeWhile isDigit09

/-- Fraction digits of the num group (greedy `(?:\.\d+)?`); empty when the
optional group does not participate. -/
def powerFrac (cs : List Char) : List Char :=
  match cs.dropWhile isDigit09 with
  | '.' :: r => r.takeWhile isDigit09
  | _ => []

/-- Rest of the text after the num group and the greedy `\s*`. -/
def powerRest (cs : List Char) : List Char :=
  (match cs.dropWhile isDigit09 with
   | '.' :: r => if (r.takeWhile isDigit09).isEmpty then cs.dropWhile isDigit09
                 else r.dropWhile isDigit09
   | r => r).dropWhile pyWs

/-- Value of the num group as an exact rational numerator/denominator
pair, converted exactly as the source: `float(num)` is
(intDs.fracDs) = (intDs*10^k + fracDs) / 10^k, times 1000.0 when the unit
stem starts with k/kilo. -/
def powerValue (kilo : Bool) (intDs fracDs : List Char) : ℕ × ℕ :=
  (if kilo then (natOfDigits intDs * 10 ^ fracDs.length + natOfDigits fracDs) * 1000
   else natOfDigits intDs * 10 ^ fracDs.length + natOfDigits fracDs,
   10 ^ fracDs.length)

/-- Attempt of the main power pattern at the current position; the outer
`Option` is match failure (finditer moves on), the inner one the
`_to_int_safe` result that the loop body returns on a hit. -/
def powerAttempt (cs : List Char) : Option (Option ℤ) :=
  match cs with
  | [] => none
  | c :: _ =>
    if isDigit09 c then
      match matchUnit (powerRest cs) with
      | some kilo =>
        some (to_int_safe (powerValue kilo (powerInt cs) (powerFrac cs)).1
                          (powerValue kilo (powerInt cs) (powerFrac cs)).2)
      | none => none
    else none

/-- First hit of `power_pat.finditer(t)`. -/
def scanPower : List Char → Option (Option ℤ)
  | [] => none
  | c :: rest =>
    match powerAttempt (c :: rest) with
    | some r => some r
    | none => scanPower rest

/-- Attempt of the fallback pattern `(?:power|wattage)\s*[:=]?\s*(\d+)` at
the current position (no word boundaries in this pattern). -/
def powerFallbackAttempt (cs : List Char) : Option (Option ℤ) :=
  match (if ("power".data).isPrefixOf cs then some 5
         else if ("wattage".data).isPrefixOf cs then some 7
         else none : Option ℕ) with
  | none => none
  | some len =>
    match ((cs.drop len).dropWhile pyWs : List Char) with
    | c :: r =>
      match (if c == ':' || c == '=' then r.dropWhile pyWs else c :: r : List Char) with
      | d :: tl =>
        if isDigit09 d then some (to_int_safe (natOfDigits (d :: tl.takeWhile isDigit09)) 1)
        else none
      | [] => none
    | [] => none

/-- `re.search` of the fallback pattern. -/
def scanPowerFallback : List Char → Option (Option ℤ)
  | [] => none
  | c :: rest =>
    match powerFallbackAttempt (c :: rest) with
    | some r => some r
    | none => scanPowerFallback rest

/-- Embedding of `_extract_power_watts`. -/
def extract_power_watts (s : String) : Option ℤ :=
  match scanPower (pyLower s) with
  | some r => r
  | none =>
    match scanPowerFallback (pyLower s) with
    | some r => r
    | none => none

/-! ## Rating extractor: `_extract_rating` (main.py lines 93-104) -/

/-- Tail of the star patterns after the number part:
`\s*[-\s]*star[s]?\b`.  The two adjacent quantifiers amount to one maximal
run over whitespace and hyphen (shorter runs leave `star` to start on a
whitespace or hyphen character and fail), and dropping an available `s`
cannot restore the trailing \b, so no residual backtracking remains. -/
def starSuffix (cs : List Char) : Bool :=
  match cs.dropWhile (fun c => pyWs c || c == '-') with
  | 's' :: 't' :: 'a' :: 'r' :: 's' :: r => boundaryAfterWord r
  | 's' :: 't' :: 'a' :: 'r' :: r => boundaryAfterWord r
  | _ => false

/-- Attempt of `\b(\d+)\s*[-\s]*star[s]?\b` at the current position. -/
def digitStarAttempt (prev : Option Char) (cs : List Char) : Option (Option ℤ) :=
  match cs with
  | c :: _ =>
    if noWordBefore prev && isDigit09 c then
      if starSuffix (cs.dropWhile isDigit09) then
        some (to_int_safe (natOfDigits (cs.takeWhile isDigit09)) 1)
      else none
    else none
  | [] => none

def scanDigitStar : Option Char → List Char → Option (Option ℤ)
  | _, [] => none
  | prev, c :: rest =>
    match digitStarAttempt prev (c :: rest) with
    | some r => some r
    | none => scanDigitStar (some c) rest

/-- Attempt of `\b(zero|one|...|ten)\s*[-\s]*star[s]?\b` at the current
position; the number words are pairwise prefix-incompatible, so the
alternation priority is simply the first word of the dict order that
matches here. -/
def wordStarAttempt (prev : Option Char) (cs : List Char) : Option ℤ :=
  if noWordBefore prev then
    NUMBER_WORDS.findSome? (fun p =>
      if p.1.data.isPrefixOf cs && starSuffix (cs.drop p.1.length) then some p.2 else none)
  else none

def scanWordStar : Option Char → List Char → Option ℤ
  | _, [] => none
  | prev, c :: rest =>
    match wordStarAttempt prev (c :: rest) with
    | some v => some v
    | none => scanWordStar (some c) rest

/-- Shared separator shape `\s*(?:is|:)?\s*` of the rating fallback and the
type pattern, followed by a capture.  Greedy `\s*` collapses to the maximal
whitespace run (an alternative of the optional group can never match on a
whitespace character, nor can either capture), then the group alternatives
`is`, `:`, empty are tried in priority order, each continued by the second
maximal whitespace run and the capture. -/
def sepThen {α : Type} (cap : List Char → Option α) (cs : List Char) : Option α :=
  match (cs.dropWhile pyWs : List Char) with
  | 'i' :: 's' :: r =>
    match cap (r.dropWhile pyWs) with
    | some v => some v
    | none => cap ('i' :: 's' :: r)
  | ':' :: r =>
    match cap (r.dropWhile pyWs) with
    | some v => some v
    | none => cap (':' :: r)
  | p1 => cap p1

/-- Capture `(\d+)\b`: maximal digit run followed by a word boundary
(a shorter run would abut a digit, so greediness is forced). -/
def capDigitsBoundary (cs : List Char) : Option (List Char) :=
  match cs with
  | c :: _ =>
    if isDigit09 c then
      if boundaryAfterWord (cs.dropWhile isDigit09) then some (cs.takeWhile isDigit09)
      else none
    else none
  | [] => none

/-- Attempt of `\brating\s*(?:is|:)?\s*(\d+)\b` at the current position. -/
def ratingFallbackAttempt (prev : Option Char) (cs : List Char) : Option (Option ℤ) :=
  if noWordBefore prev && ("rating".data).isPrefixOf cs then
    match sepThen capDigitsBoundary (cs.drop 6) with
    | some ds => some (to_int_safe (natOfDigits ds) 1)
    | none => none
  else none

def scanRatingFallback : Option Char → List Char → Option (Option ℤ)
  | _, [] => none
  | prev, c :: rest =>
    match ratingFallbackAttempt prev (c :: rest) with
    | some r => some r
    | none => scanRatingFallback (some c) rest

/-- Embedding of `_extract_rating`: digit form, then word form, then the
`rating` fallback. -/
def extract_rating (s : String) : Option ℤ :=
  match scanDigitStar none (pyLower s) with
  | some r => r
  | none =>
    match scanWordStar none (pyLower s) with
    | some v => some v
    | none =>
      match scanRatingFallback none (pyLower s) with
      | some r => r
      | none => none

/-! ## Type extractor: `_extract_type` (main.py lines 106-114) -/

/-- Capture `([a-zA-Z]+)\b`: maximal letter run followed by a word boundary
(a shorter run would abut a letter, so greediness is forced). -/
def capLettersBoundary (cs : List Char) : Option (List Char) :=
  match cs with
  | c :: _ =>
    if isAlphaAZ c then
      if boundaryAfterWord (cs.dropWhile isAlphaAZ) then some (cs.takeWhile isAlphaAZ)
      else none
    else none
  | [] => none

/-- Attempt of `\btype\s*(?:is|:)?\s*([a-zA-Z]+)\b` at the current position. -/
def typeAttempt (prev : Option Char) (cs : List Char) : Option (List Char) :=
  if noWordBefore prev && ("type".data).isPrefixOf cs then
    sepThen capLettersBoundary (cs.drop 4)
  else none

def scanType : Option Char → List Char → Option (List Char)
  | _, [] => none
  | prev, c :: rest =>
    match typeAttempt prev (c :: rest) with
    | some v => some v
    | none => scanType (some c) rest

/-- Whole-word occurrence anywhere in the text: `re.search(rf"\b{w}\b", t)`
for a literal `w` that starts and ends with word characters (every
vocabulary entry does; an inner space of a two-word entry is matched
literally). -/
def hasWholeWord (w : List Char) : Option Char → List Char → Bool
  | _, [] => false
  | prev, c :: rest =>
    (noWordBefore prev && w.isPrefixOf (c :: rest) && boundaryAfterWord ((c :: rest).drop w.length))
    || hasWholeWord w (some c) rest

/-- Keyword list of the `for kw in [...]` loop in `_extract_type`. -/
def TYPE_KEYWORDS : List String := ["electric", "gas", "solar", "battery", "diesel"]

/-- Embedding of `_extract_type`: explicit `type` pattern (whose captured
group is letters only, so the source's `.strip()` is the identity on it,
kept anyway), then the keyword loop in list order. -/
def extract_type (s : String) : Option String :=
  match scanType none (pyLower s) with
  | some ls => some (String.mk (pyStrip ls))
  | none =>
    match TYPE_KEYWORDS.find? (fun kw => hasWholeWord kw.data none (pyLower s)) with
    | some kw => some kw
    | none => none

/-! ## Location extractor: `_extract_location` (main.py lines 116-128)

Fallback pattern `\b(?:in|for|at)\s+(?:the\s+)?([a-z][a-z ]{1,30})\b`,
then `re.sub(r"\b(device|appliance|room|area)\b.*$", "", candidate)`,
strip, split, first three words. -/

/-- Character class `[a-z ]` of the fallback capture. -/
def isLocClass (c : Char) : Bool := isLowerAZ c || c == ' '

/-- Word boundary between the k-th consumed capture character (1-based)
and its successor. -/
def boundaryOkAt (rest : List Char) (k : ℕ) : Bool :=
  match rest.drop (k - 1) with
  | last :: tl =>
    isWordChar last != (match tl with | n :: _ => isWordChar n | [] => false)
  | [] => false

/-- Greedy `{1,30}` followed by \b: the largest count k ≤ m whose end sits
on a word boundary, engine backtracking from the maximum down. -/
def capBoundaryLen (rest : List Char) : ℕ → Option ℕ
  | 0 => none
  | Nat.succ k => if boundaryOkAt rest (k + 1) then some (k + 1) else capBoundaryLen rest k

/-- Capture `([a-z][a-z ]{1,30})\b` at the current position. -/
def locCapture (cs : List Char) : Option (List Char) :=
  match cs with
  | c :: rest =>
    if isLowerAZ c then
      match capBoundaryLen rest (min (rest.takeWhile isLocClass).length 30) with
      | some k => some (c :: rest.take k)
      | none => none
    else none
  | [] => none

/-- The optional `(?:the\s+)?` group followed by the capture, at the
position after the preposition's whitespace.  If `the` plus at least one
whitespace is present the greedy group participates first; if the capture
then fails the group backtracks to empty and the capture restarts on the
`t` of `the`. -/
def locAfterPrep (p : List Char) : Option (List Char) :=
  if ("the".data).isPrefixOf p && (match p.drop 3 with | d :: _ => pyWs d | [] => false) then
    match locCapture ((p.drop 3).dropWhile pyWs) with
    | some g => some g
    | none => locCapture p
  else locCapture p

/-- Length of the preposition alternative matching here; the three
alternatives start with pairwise distinct letters, so at most one applies. -/
def locPrepLen (cs : List Char) : Option ℕ :=
  if ("in".data).isPrefixOf cs then some 2
  else if ("for".data).isPrefixOf cs then some 3
  else if ("at".data).isPrefixOf cs then some 2
  else none

/-- Attempt of the location fallback pattern at the current position:
\b, preposition, `\s+` (at least one, maximal), optional `the`, capture. -/
def locFallbackAttempt (prev : Option Char) (cs : List Char) : Option (List Char) :=
  if noWordBefore prev then
    match locPrepLen cs with
    | some len =>
      match (cs.drop len : List Char) with
      | c :: _ =>
        if pyWs c then locAfterPrep ((cs.drop len).dropWhile pyWs) else none
      | [] => none
    | none => none
  else none

def scanLocFallback : Option Char → List Char → Option (List Char)
  | _, [] => none
  | prev, c :: rest =>
    match locFallbackAttempt prev (c :: rest) with
    | some g => some g
    | none => scanLocFallback (some c) rest

/-- Generic nouns of the `re.sub` pattern in `_extract_location`. -/
def GENERIC_NOUNS : List String := ["device", "appliance", "room", "area"]

/-- Does `\b(device|appliance|room|area)\b` match at the current position? -/
def genericNounAt (cs : List Char) : Bool :=
  GENERIC_NOUNS.any (fun w => w.data.isPrefixOf cs && boundaryAfterWord (cs.drop w.length))

/-- `re.sub(r"\b(device|appliance|room|area)\b.*$", "", candidate)`: delete
from the leftmost whole-word generic noun to the end (the `.*$` swallows
the rest, so at most one replacement happens). -/
def subGeneric : Option Char → List Char → List Char
  | _, [] => []
  | prev, c :: rest =>
    if noWordBefore prev && genericNounAt (c :: rest) then []
    else c :: subGeneric (some c) rest

/-- Post-processing of the fallback capture: strip, remove a trailing
generic noun, strip, keep at most the first three words, empty means
absent. -/
def locPost (g : List Char) : Option String :=
  if (joinSpace ((pySplit (pyStrip (subGeneric none (pyStrip g)))).take 3)).isEmpty then none
  else some (String.mk (joinSpace ((pySplit (pyStrip (subGeneric none (pyStrip g)))).take 3)))

/-- Embedding of `_extract_location`: known vocabulary in list order first,
then the preposition fallback. -/
def extract_location (s : String) : Option String :=
  match KNOWN_LOCATIONS.find? (fun loc => hasWholeWord loc.data none (pyLower s)) with
  | some loc => some loc
  | none =>
    match scanLocFallback none (pyLower s) with
    | some g => locPost g
    | none => none

/-! ## Device-name extractor: `_extract_device_name` (main.py lines 130-147) -/

/-- `re.findall(r"[a-z0-9]+", t)`: class of the token characters. -/
def isAZ09 (c : Char) : Bool := isLowerAZ c || isDigit09 c

/-- Token list `words` of `_extract_device_name`. -/
def tokenize (cs : List Char) : List (List Char) := splitRuns isAZ09 cs []

/-- Body of the window loop at index i: the 2-word and 3-word windows are
checked against every device keyword as substrings; on a hit the candidate
is `words[max(0, i-1) : i+3]` joined with spaces (and the source's final
`.strip()`, an identity on space-joined nonempty tokens, kept anyway). -/
def deviceTry (ws : List (List Char)) (i : ℕ) : Option (List Char) :=
  if DEVICE_KEYWORDS.any (fun kw =>
       isSubstr kw.data (joinSpace ((ws.drop i).take 2)) ||
       isSubstr kw.data (joinSpace ((ws.drop i).take 3))) then
    some (pyStrip (joinSpace ((ws.drop (i - 1)).take ((i + 3) - (i - 1)))))
  else none

/-- The loop `for i in range(len(words)-1)`, first hit wins. -/
def deviceFind (ws : List (List Char)) : Option (List Char) :=
  (List.range (ws.length - 1)).findSome? (fun i => deviceTry ws i)

/-- Embedding of `_extract_device_name`. -/
def extract_device_name (s : String) : Option String :=
  match deviceFind (tokenize (pyLower s)) with
  | some cand => some (String.mk cand)
  | none => none

/-! ## Orchestrator: `parse_details` (main.py lines 150-157) -/

/-- The `DeviceDetails` record (pydantic model, all fields optional with
default `None`). -/
structure DeviceDetails where
  name : Option String
  type : Option String
  powerwatts : Option ℤ
  rating : Option ℤ
  location : Option String
deriving DecidableEq, Repr

/-- Embedding of `parse_details`: the five extractors run independently on
the same input. -/
def parse_details (s : String) : DeviceDetails :=
  { name := extract_device_name s
    type := extract_type s
    powerwatts := extract_power_watts s
    rating := extract_rating s
    location := extract_location s }

/-! ## Helper lemmas -/

theorem to_int_safe_nonneg (num den : ℕ) (z : ℤ) (h : to_int_safe num den = some z) : 0 ≤ z := by
  simp only [to_int_safe, Option.some.injEq] at h
  exact h ▸ Int.natCast_nonneg _

theorem powerAttempt_nonneg (cs : List Char) (r : Option ℤ) (h : powerAttempt cs = some r)
    (n : ℤ) (hn : r = some n) : 0 ≤ n := by
  cases cs with
  | nil => simp [powerAttempt] at h
  | cons c rest =>
    simp only [powerAttempt] at h
    split at h
    · split at h
      · injection h with h1
        subst h1
        exact to_int_safe_nonneg _ _ _ hn
      · cases h
    · cases h

theorem scanPower_nonneg (cs : List Char) (r : Option ℤ) (h : scanPower cs = some r)
    (n : ℤ) (hn : r = some n) : 0 ≤ n := by
  induction cs with
  | nil => simp [scanPower] at h
  | cons c rest ih =>
    unfold scanPower at h
    cases h1 : powerAttempt (c :: rest) with
    | some r2 =>
      rw [h1] at h
      injection h with h2
      exact powerAttempt_nonneg _ _ h1 n (h2 ▸ hn)
    | none => rw [h1] at h; exact ih h

theorem powerFallbackAttempt_nonneg (cs : List Char) (r : Option ℤ)
    (h : powerFallbackAttempt cs = some r) (n : ℤ) (hn : r = some n) : 0 ≤ n := by
  unfold powerFallbackAttempt at h
  split at h
  · cases h
  · split at h
    · split at h
      · split at h
        · injection h with h1
          subst h1
          exact to_int_safe_nonneg _ _ _ hn
        · cases h
      · cases h
    · cases h

theorem scanPowerFallback_nonneg (cs : List Char) (r : Option ℤ)
    (h : scanPowerFallback cs = some r) (n : ℤ) (hn : r = some n) : 0 ≤ n := by
  induction cs with
  | nil => simp [scanPowerFallback] at h
  | cons c rest ih =>
    unfold scanPowerFallback at h
    cases h1 : powerFallbackAttempt (c :: rest) with
    | some r2 =>
      rw [h1] at h
      injection h with h2
      exact powerFallbackAttempt_nonneg _ _ h1 n (h2 ▸ hn)
    | none => rw [h1] at h; exact ih h

theorem extract_power_watts_nonneg (s : String) (n : ℤ)
    (h : extract_power_watts s = some n) : 0 ≤ n := by
  unfold extract_power_watts at h
  cases h1 : scanPower (pyLower s) with
  | some r => rw [h1] at h; exact scanPower_nonneg _ _ h1 n h
  | none =>
    rw [h1] at h
    cases h2 : scanPowerFallback (pyLower s) with
    | some r => rw [h2] at h; exact scanPowerFallback_nonneg _ _ h2 n h
    | none => rw [h2] at h; cases h

theorem digitStarAttempt_nonneg (prev : Option Char) (cs : List Char) (r : Option ℤ)
    (h : digitStarAttempt prev cs = some r) (n : ℤ) (hn : r = some n) : 0 ≤ n := by
  cases cs with
  | nil => simp [digitStarAttempt] at h
  | cons c rest =>
    simp only [digitStarAttempt] at h
    split at h
    · split at h
      · injection h with h1
        subst h1
        exact to_int_safe_nonneg _ _ _ hn
      · cases h
    · cases h

theorem scanDigitStar_nonneg (cs : List Char) (prev : Option Char) (r : Option ℤ)
    (h : scanDigitStar prev cs = some r) (n : ℤ) (hn : r = some n) : 0 ≤ n := by
  induction cs generalizing prev with
  | nil => simp [scanDigitStar] at h
  | cons c rest ih =>
    unfold scanDigitStar at h
    cases h1 : digitStarAttempt prev (c :: rest) with
    | some r2 =>
      rw [h1] at h
      injection h with h2
      exact digitStarAttempt_nonneg _ _ _ h1 n (h2 ▸ hn)
    | none => rw [h1] at h; exact ih _ h

theorem wordStarAttempt_nonneg (prev : Option Char) (cs : List Char) (v : ℤ)
    (h : wordStarAttempt prev cs = some v) : 0 ≤ v := by
  unfold wordStarAttempt at h
  split at h
  · obtain ⟨p, hp, hf⟩ := List.exists_of_findSome?_eq_some h
    split at hf
    · injection hf with h1
      have hall : ∀ q ∈ NUMBER_WORDS, (0 : ℤ) ≤ q.2 := by decide
      exact h1 ▸ hall p hp
    · cases hf
  · cases h

theorem scanWordStar_nonneg (cs : List Char) (prev : Option Char) (v : ℤ)
    (h : scanWordStar prev cs = some v) : 0 ≤ v := by
  induction cs generalizing prev with
  | nil => simp [scanWordStar] at h
  | cons c rest ih =>
    unfold scanWordStar at h
    cases h1 : wordStarAttempt prev (c :: rest) with
    | some v2 =>
      rw [h1] at h
      injection h with h2
      exact h2 ▸ wordStarAttempt_nonneg _ _ _ h1
    | none => rw [h1] at h; exact ih _ h

theorem ratingFallbackAttempt_nonneg (prev : Option Char) (cs : List Char) (r : Option ℤ)
    (h : ratingFallbackAttempt prev cs = some r) (n : ℤ) (hn : r = some n) : 0 ≤ n := by
  unfold ratingFallbackAttempt at h
  split at h
  · split at h
    · injection h with h1
      subst h1
      exact to_int_safe_nonneg _ _ _ hn
    · cases h
  · cases h

theorem scanRatingFallback_nonneg (cs : List Char) (prev : Option Char) (r : Option ℤ)
    (h : scanRatingFallback prev cs = some r) (n : ℤ) (hn : r = some n) : 0 ≤ n := by
  induction cs generalizing prev with
  | nil => simp [scanRatingFallback] at h
  | cons c rest ih =>
    unfold scanRatingFallback at h
    cases h1 : ratingFallbackAttempt prev (c :: rest) with
    | some r2 =>
      rw [h1] at h
      injection h with h2
      exact ratingFallbackAttempt_nonneg _ _ _ h1 n (h2 ▸ hn)
    | none => rw [h1] at h; exact ih _ h

theorem extract_rating_nonneg (s : String) (n : ℤ)
    (h : extract_rating s = some n) : 0 ≤ n := by
  unfold extract_rating at h
  cases h1 : scanDigitStar none (pyLower s) with
  | some r => rw [h1] at h; exact scanDigitStar_nonneg _ _ _ h1 n h
  | none =>
    rw [h1] at h
    cases h2 : scanWordStar none (pyLower s) with
    | some v => rw [h2] at h; injection h with h3; exact h3 ▸ scanWordStar_nonneg _ _ _ h2
    | none =>
      rw [h2] at h
      cases h3 : scanRatingFallback none (pyLower s) with
      | some r => rw [h3] at h; exact scanRatingFallback_nonneg _ _ _ h3 n h
      | none => rw [h3] at h; cases h

theorem mem_of_mem_dropWhile {p : Char → Bool} :
    ∀ (l : List Char) (c : Char), c ∈ l.dropWhile p → c ∈ l := by
  intro l
  induction l with
  | nil => intro c h; simp [List.dropWhile] at h
  | cons a t ih =>
    intro c h
    rw [List.dropWhile_cons] at h
    split at h
    · exact List.mem_cons_of_mem _ (ih c h)
    · exact h

theorem mem_of_mem_pyStrip (l : List Char) (c : Char) (h : c ∈ pyStrip l) : c ∈ l := by
  unfold pyStrip at h
  rw [List.mem_reverse] at h
  have h1 := mem_of_mem_dropWhile _ _ h
  rw [List.mem_reverse] at h1
  exact mem_of_mem_dropWhile _ _ h1

theorem mem_of_mem_subGeneric :
    ∀ (l : List Char) (prev : Option Char) (c : Char), c ∈ subGeneric prev l → c ∈ l := by
  intro l
  induction l with
  | nil => intro prev c h; simp [subGeneric] at h
  | cons a t ih =>
    intro prev c h
    unfold subGeneric at h
    split at h
    · simp at h
    · rcases List.mem_cons.mp h with h1 | h1
      · exact h1 ▸ List.mem_cons_self _ _
      · exact List.mem_cons_of_mem _ (ih _ c h1)

theorem splitRuns_subset {keep : Char → Bool} :
    ∀ (l acc w : List Char), w ∈ splitRuns keep l acc → ∀ c ∈ w, c ∈ l ∨ c ∈ acc := by
  intro l
  induction l with
  | nil =>
    intro acc w hw c hc
    unfold splitRuns at hw
    split at hw
    · simp at hw
    · simp only [List.mem_singleton] at hw
      subst hw
      exact Or.inr (List.mem_reverse.mp hc)
  | cons a t ih =>
    intro acc w hw c hc
    unfold splitRuns at hw
    split at hw
    · rcases ih _ _ hw c hc with h | h
      · exact Or.inl (List.mem_cons_of_mem _ h)
      · rcases List.mem_cons.mp h with h1 | h1
        · exact Or.inl (h1 ▸ List.mem_cons_self _ _)
        · exact Or.inr h1
    · split at hw
      · rcases ih _ _ hw c hc with h | h
        · exact Or.inl (List.mem_cons_of_mem _ h)
        · simp at h
      · rcases List.mem_cons.mp hw with h1 | h1
        · subst h1
          exact Or.inr (List.mem_reverse.mp hc)
        · rcases ih _ _ h1 c hc with h | h
          · exact Or.inl (List.mem_cons_of_mem _ h)
          · simp at h

theorem splitRuns_tokens {keep : Char → Bool} :
    ∀ (l acc : List Char), (∀ c ∈ acc, keep c = true) →
      ∀ w ∈ splitRuns keep l acc, w ≠ [] ∧ ∀ c ∈ w, keep c = true := by
  intro l
  induction l with
  | nil =>
    intro acc hacc w hw
    unfold splitRuns at hw
    split at hw
    · simp at hw
    · rename_i hne
      simp only [List.mem_singleton] at hw
      subst hw
      refine ⟨?_, fun c hc => hacc c (List.mem_reverse.mp hc)⟩
      intro hre
      rw [List.reverse_eq_nil_iff] at hre
      subst hre
      exact hne rfl
  | cons a t ih =>
    intro acc hacc w hw
    unfold splitRuns at hw
    split at hw
    · rename_i hka
      refine ih _ ?_ w hw
      intro c hc
      rcases List.mem_cons.mp hc with h1 | h1
      · exact h1 ▸ hka
      · exact hacc c h1
    · split at hw
      · exact ih _ (by intro c hc; simp at hc) w hw
      · rename_i hne
        rcases List.mem_cons.mp hw with h1 | h1
        · subst h1
          refine ⟨?_, fun c hc => hacc c (List.mem_reverse.mp hc)⟩
          intro hre
          rw [List.reverse_eq_nil_iff] at hre
          subst hre
          exact hne rfl
        · exact ih _ (by intro c hc; simp at hc) w h1

theorem splitRuns_append_keep {keep : Char → Bool} :
    ∀ (w l acc : List Char), (∀ c ∈ w, keep c = true) →
      splitRuns keep (w ++ l) acc = splitRuns keep l (w.reverse ++ acc) := by
  intro w
  induction w with
  | nil => intro l acc h; simp
  | cons a t ih =>
    intro l acc h
    have ha : keep a = true := h a (List.mem_cons_self _ _)
    rw [List.cons_append]
    simp only [splitRuns]
    rw [if_pos ha, ih l (a :: acc) (fun c hc => h c (List.mem_cons_of_mem _ hc))]
    simp [List.reverse_cons, List.append_assoc]

theorem mem_joinSpace :
    ∀ (ts : List (List Char)) (c : Char), c ∈ joinSpace ts → c = ' ' ∨ ∃ w ∈ ts, c ∈ w := by
  intro ts
  induction ts with
  | nil => intro c h; simp [joinSpace] at h
  | cons w rest ih =>
    cases rest with
    | nil => intro c h; exact Or.inr ⟨w, List.mem_cons_self _ _, h⟩
    | cons v ts2 =>
      intro c h
      rw [show joinSpace (w :: v :: ts2) = w ++ ' ' :: joinSpace (v :: ts2) from rfl] at h
      rcases List.mem_append.mp h with h1 | h1
      · exact Or.inr ⟨w, List.mem_cons_self _ _, h1⟩
      · rcases List.mem_cons.mp h1 with h2 | h2
        · exact Or.inl h2
        · rcases ih c h2 with h3 | ⟨u, hu, hc⟩
          · exact Or.inl h3
          · exact Or.inr ⟨u, List.mem_cons_of_mem _ hu, hc⟩

theorem pySplit_joinSpace :
    ∀ ts : List (List Char), (∀ w ∈ ts, w ≠ [] ∧ ∀ c ∈ w, pyWs c = false) →
      pySplit (joinSpace ts) = ts := by
  intro ts
  induction ts with
  | nil => intro _; rfl
  | cons w rest ih =>
    intro h
    obtain ⟨hw, hwc⟩ := h w (List.mem_cons_self _ _)
    have hkeep : ∀ c ∈ w, (!pyWs c) = true := by
      intro c hc
      simp [hwc c hc]
    cases rest with
    | nil =>
      show pySplit (joinSpace [w]) = [w]
      rw [show joinSpace [w] = w from rfl]
      unfold pySplit
      rw [show w = w ++ ([] : List Char) by simp]
      rw [splitRuns_append_keep w [] [] (by simpa using hkeep)]
      unfold splitRuns
      rw [if_neg ?_]
      · simp
      · simp only [List.append_nil, List.isEmpty_iff, List.reverse_eq_nil_iff]
        intro hre
        exact hw (by simpa using hre)
    | cons v ts2 =>
      show pySplit (joinSpace (w :: v :: ts2)) = w :: v :: ts2
      rw [show joinSpace (w :: v :: ts2) = w ++ ' ' :: joinSpace (v :: ts2) from rfl]
      unfold pySplit
      rw [splitRuns_append_keep w _ [] hkeep]
      rw [List.append_nil]
      unfold splitRuns
      rw [if_neg (by decide), if_neg ?_]
      · rw [List.reverse_reverse]
        have := ih (fun u hu => h u (List.mem_cons_of_mem _ hu))
        unfold pySplit at this
        rw [this]
      · simp only [List.isEmpty_iff, List.reverse_eq_nil_iff]
        exact hw

theorem isLocClass_of_lower (c : Char) (h : isLowerAZ c = true) : isLocClass c = true := by
  simp [isLocClass, h]

theorem isLocClass_not_upper (c : Char) (h : isLocClass c = true) : isUpperAZ c = false := by
  simp only [isLocClass, isLowerAZ, Bool.or_eq_true, decide_eq_true_eq, beq_iff_eq] at h
  simp only [isUpperAZ, decide_eq_false_iff_not]
  rcases h with h | h
  · omega
  · subst h
    decide

theorem mem_take_takeWhile {p : Char → Bool} :
    ∀ (l : List Char) (k : ℕ), k ≤ (l.takeWhile p).length → ∀ x ∈ l.take k, p x = true := by
  intro l
  induction l with
  | nil => intro k hk x hx; simp at hx
  | cons a t ih =>
    intro k hk x hx
    cases k with
    | zero => simp at hx
    | succ k2 =>
      by_cases hpa : p a = true
      · rw [List.takeWhile_cons, if_pos hpa] at hk
        simp only [List.length_cons, Nat.succ_le_succ_iff] at hk
        rw [List.take_succ_cons] at hx
        rcases List.mem_cons.mp hx with h1 | h1
        · exact h1 ▸ hpa
        · exact ih k2 hk x h1
      · rw [List.takeWhile_cons, if_neg hpa] at hk
        simp at hk

theorem capBoundaryLen_le :
    ∀ (rest : List Char) (m k : ℕ), capBoundaryLen rest m = some k → k ≤ m := by
  intro rest m
  induction m with
  | zero => intro k h; simp [capBoundaryLen] at h
  | succ m2 ih =>
    intro k h
    unfold capBoundaryLen at h
    split at h
    · injection h with h1
      omega
    · exact Nat.le_succ_of_le (ih k h)

theorem locCapture_class (cs g : List Char) (h : locCapture cs = some g) :
    ∀ c ∈ g, isLocClass c = true := by
  intro c hc
  cases cs with
  | nil => simp [locCapture] at h
  | cons a rest =>
    simp only [locCapture] at h
    split at h
    · rename_i ha
      split at h
      · rename_i k hk
        injection h with h1
        subst h1
        rcases List.mem_cons.mp hc with h2 | h2
        · exact h2 ▸ isLocClass_of_lower a ha
        · have hle : k ≤ (rest.takeWhile isLocClass).length :=
            le_trans (capBoundaryLen_le _ _ _ hk) (min_le_left _ _)
          exact mem_take_takeWhile rest k hle c h2
      · cases h
    · cases h

theorem locAfterPrep_class (p g : List Char) (h : locAfterPrep p = some g) :
    ∀ c ∈ g, isLocClass c = true := by
  unfold locAfterPrep at h
  split at h
  · cases h1 : locCapture ((p.drop 3).dropWhile pyWs) with
    | some g2 =>
      rw [h1] at h
      injection h with h2
      exact h2 ▸ locCapture_class _ _ h1
    | none =>
      rw [h1] at h
      exact locCapture_class _ _ h
  · exact locCapture_class _ _ h

theorem locFallbackAttempt_class (prev : Option Char) (cs g : List Char)
    (h : locFallbackAttempt prev cs = some g) : ∀ c ∈ g, isLocClass c = true := by
  unfold locFallbackAttempt at h
  split at h
  · split at h
    · split at h
      · split at h
        · exact locAfterPrep_class _ _ h
        · cases h
      · cases h
    · cases h
  · cases h

theorem scanLocFallback_class :
    ∀ (cs : List Char) (prev : Option Char) (g : List Char),
      scanLocFallback prev cs = some g → ∀ c ∈ g, isLocClass c = true := by
  intro cs
  induction cs with
  | nil => intro prev g h; simp [scanLocFallback] at h
  | cons a rest ih =>
    intro prev g h
    unfold scanLocFallback at h
    cases h1 : locFallbackAttempt prev (a :: rest) with
    | some g2 =>
      rw [h1] at h
      injection h with h2
      exact h2 ▸ locFallbackAttempt_class _ _ _ h1
    | none =>
      rw [h1] at h
      exact ih _ _ h

/-! ## Claim theorems -/

/-- C1: for every input string (including empty and arbitrary malformed
text), `parse_details` terminates and returns a `DeviceDetails` record
without raising an exception — in the embedding it is a total function
whose five fields are `Option` values, and the internal integer conversion
`to_int_safe` yields an `Option` that is threaded into the field rather
than an error. -/
theorem parse_details_total (s : String) :
    ∃ d : DeviceDetails, parse_details s = d ∧
      (d.name = none ∨ ∃ v, d.name = some v) ∧
      (d.type = none ∨ ∃ v, d.type = some v) ∧
      (d.powerwatts = none ∨ ∃ n, d.powerwatts = some n) ∧
      (d.rating = none ∨ ∃ n, d.rating = some n) ∧
      (d.location = none ∨ ∃ v, d.location = some v) := by
  have opt : ∀ {α : Type} (o : Option α), o = none ∨ ∃ x, o = some x := by
    intro α o
    cases o with
    | none => exact Or.inl rfl
    | some x => exact Or.inr ⟨x, rfl⟩
  exact ⟨parse_details s, rfl, opt _, opt _, opt _, opt _, opt _⟩

/-- C2: `parse_details` applied to the empty string returns a record in
which all five fields are absent. -/
theorem parse_details_empty :
    parse_details "" = DeviceDetails.mk none none none none none := by decide

/-- C3: power extraction uses the first unit-qualified number in the text
("uses 2kw and 5w" gives 2000, not 5), multiplies by 1000 for a k/kilo
stem ("runs at 1.5kW" gives 1500), rounds to the nearest integer
("draws 2.4w" gives 2), and falls back to the power/wattage pattern only
when no unit-qualified number exists ("power: 7 and 3w" gives 3, while
"power: 800" gives 800 verbatim); "runs at 1500W" gives 1500. -/
theorem power_extraction_spec :
    (parse_details "runs at 1.5kW").powerwatts = some 1500 ∧
    (parse_details "runs at 1500W").powerwatts = some 1500 ∧
    (parse_details "power: 800").powerwatts = some 800 ∧
    extract_power_watts "uses 2kw and 5w" = some 2000 ∧
    extract_power_watts "power: 7 and 3w" = some 3 ∧
    extract_power_watts "draws 2.4w" = some 2 := by decide

/-- C4: rating extraction prefers the digit star form over the word star
form over the `rating` fallback: "it's a 3 star fridge" gives 3,
"three star washing machine" gives 3, "rating is 4" gives 4; with both a
word form and a digit form present ("two star 5 star") the digit form
wins (5), and with a word form and a fallback form present
("rating is 9 three stars") the word form wins (3). -/
theorem rating_extraction_spec :
    (parse_details "it's a 3 star fridge").rating = some 3 ∧
    (parse_details "three star washing machine").rating = some 3 ∧
    (parse_details "rating is 4").rating = some 4 ∧
    extract_rating "two star 5 star" = some 5 ∧
    extract_rating "rating is 9 three stars" = some 3 := by decide

/-- C5: location extraction returns the first known-location vocabulary
entry (in vocabulary-list order, not text order: "the bedroom and the
kitchen" gives "kitchen") that whole-word-matches the text; only without
such a match does it use the preposition fallback, stripping a trailing
generic noun ("placed in the main hallway area" gives "main hallway"),
truncating to three words ("for one two three four" gives
"one two three"), and returning absent when the capture reduces to empty
("in the area"). -/
theorem location_extraction_spec :
    (parse_details "turn on the fan in the kitchen").location = some "kitchen" ∧
    extract_location "the bedroom and the kitchen" = some "kitchen" ∧
    extract_location "placed in the main hallway area" = some "main hallway" ∧
    extract_location "for one two three four" = some "one two three" ∧
    extract_location "in the area" = none := by decide

/-- C6: device-name extraction returns, for the leftmost window position
whose 2-word or 3-word window contains a device keyword as a substring
("old fan new heater" matches at the first window), one word of left
context followed by the matched window ("LG fridge two star" yields a
name that includes "lg fridge"), and absent when no window matches. -/
theorem device_name_extraction_spec :
    (parse_details "LG fridge two star").name = some "lg fridge two" ∧
    isSubstr ("lg fridge".data) (("lg fridge two" : String).data) = true ∧
    extract_device_name "old fan new heater" = some "old fan new" ∧
    extract_device_name "hello world nothing" = none := by decide

/-- C7: type extraction first matches the explicit `type` pattern and
returns the word lower-cased ("type: electric" and "type: ELECTRIC" both
give "electric"); otherwise it returns the first whole-word keyword in
keyword-list order ("it runs on solar power" gives "solar",
"diesel and gas generator" gives "gas", not "diesel"), and absent when
none matches. -/
theorem type_extraction_spec :
    (parse_details "type: electric").type = some "electric" ∧
    (parse_details "it runs on solar power").type = some "solar" ∧
    extract_type "type: ELECTRIC" = some "electric" ∧
    extract_type "diesel and gas generator" = some "gas" ∧
    extract_type "nothing to see" = none := by decide

/-- C8: for every input string, whenever the location field of the record
returned by `parse_details` is present it contains no upper-case letter
and consists of at most 3 words. -/
theorem location_lower_and_short (s : String) (v : String)
    (h : (parse_details s).location = some v) :
    (∀ c ∈ v.data, isUpperAZ c = false) ∧ (pySplit v.data).length ≤ 3 := by
  have h0 : extract_location s = some v := h
  unfold extract_location at h0
  cases hf : KNOWN_LOCATIONS.find? (fun loc => hasWholeWord loc.data none (pyLower s)) with
  | some loc =>
    simp only [hf, Option.some.injEq] at h0
    subst h0
    have hm := List.mem_of_find?_eq_some hf
    have hall : ∀ l ∈ KNOWN_LOCATIONS,
        (∀ c ∈ l.data, isUpperAZ c = false) ∧ (pySplit l.data).length ≤ 3 := by decide
    exact hall loc hm
  | none =>
    simp only [hf] at h0
    cases hg : scanLocFallback none (pyLower s) with
    | none => simp only [hg] at h0; cases h0
    | some g =>
      simp only [hg] at h0
      unfold locPost at h0
      split at h0
      · cases h0
      · rw [Option.some.injEq] at h0
        have hgood : ∀ w ∈ (pySplit (pyStrip (subGeneric none (pyStrip g)))).take 3,
            w ≠ [] ∧ ∀ c ∈ w, pyWs c = false := by
          intro w hw
          have hw2 : w ∈ splitRuns (fun c => !pyWs c) (pyStrip (subGeneric none (pyStrip g))) [] :=
            List.take_subset 3 _ hw
          have ht := splitRuns_tokens _ [] (by intro c hc; simp at hc) w hw2
          refine ⟨ht.1, fun c hc => ?_⟩
          have := ht.2 c hc
          simpa using this
        have hdata :
            v.data = joinSpace ((pySplit (pyStrip (subGeneric none (pyStrip g)))).take 3) := by
          rw [← h0]
        constructor
        · intro c hc
          rw [hdata] at hc
          rcases mem_joinSpace _ c hc with h1 | ⟨w, hw, hcw⟩
          · subst h1; decide
          · have hw2 : w ∈ splitRuns (fun c => !pyWs c) (pyStrip (subGeneric none (pyStrip g))) [] :=
              List.take_subset 3 _ hw
            have hc2 : c ∈ pyStrip (subGeneric none (pyStrip g)) := by
              rcases splitRuns_subset _ [] w hw2 c hcw with h2 | h2
              · exact h2
              · simp at h2
            have hc3 : c ∈ g :=
              mem_of_mem_pyStrip _ _
                (mem_of_mem_subGeneric _ _ _ (mem_of_mem_pyStrip _ _ hc2))
            exact isLocClass_not_upper c (scanLocFallback_class _ _ _ hg c hc3)
        · rw [hdata, pySplit_joinSpace _ hgood]
          exact List.length_take_le _ _

/-- Witness for C8 at a concrete input: the location of
"turn the light on in the kitchen" is present and satisfies both bounds. -/
theorem location_lower_and_short_witness :
    (∀ c ∈ ("kitchen" : String).data, isUpperAZ c = false) ∧
    (pySplit ("kitchen" : String).data).length ≤ 3 :=
  location_lower_and_short "turn the light on in the kitchen" "kitchen" (by decide)

/-- C9: for every input string whose tokenisation into lowercase
alphanumeric words yields fewer than two words, device-name extraction
returns absent even when the single word is itself a device keyword. -/
theorem name_absent_on_short_input (s : String)
    (h : (tokenize (pyLower s)).length < 2) : (parse_details s).name = none := by
  have h0 : (tokenize (pyLower s)).length - 1 = 0 := by omega
  show extract_device_name s = none
  unfold extract_device_name deviceFind
  rw [h0]
  rfl

/-- Witness for C9: `parse_details "fridge"` has an absent name even
though "fridge" itself is a device keyword. -/
theorem name_absent_on_short_input_witness : (parse_details "fridge").name = none :=
  name_absent_on_short_input "fridge" (by decide)

/-- C10: for every input string, a present powerwatts or rating field of
the record returned by `parse_details` is a non-negative integer. -/
theorem numeric_fields_nonneg (s : String) :
    (∀ n : ℤ, (parse_details s).powerwatts = some n → 0 ≤ n) ∧
    (∀ n : ℤ, (parse_details s).rating = some n → 0 ≤ n) :=
  ⟨fun n h => extract_power_watts_nonneg s n h, fun n h => extract_rating_nonneg s n h⟩

/-- Witness for C10 at concrete inputs with both numeric fields present. -/
theorem numeric_fields_nonneg_witness : (0 : ℤ) ≤ 1500 ∧ (0 : ℤ) ≤ 3 :=
  ⟨(numeric_fields_nonneg "runs at 1.5kW").1 1500 (by decide),
   (numeric_fields_nonneg "it's a 3 star fridge").2 3 (by decide)⟩
